import Mathlib

/-!
Verification of the `functional` Go library (StandoffVenus/functional):
a shallow embedding of the `optional` package (Option/Result), the
`iterator` package (Slice, Func and the cancellable wait protocol), and
the `functional` package combinators (ForEach, Collect, Equal, Map,
Reduce, Sort, Chain), together with theorems settling the frozen claims
about the library.

Go machine state is embedded functionally: stateful iterators become
explicit state passing (`Next` returns the produced option together
with the advanced iterator), nil-able Go values become dedicated
constructors, and panics become `Except.error`.
-/

namespace optional

/-- Embeds `optional.Option[T]`: a struct with a `some` flag and a
`value` field. Go's zero value of `T` is modelled by `default`. -/
structure Option (T : Type) where
  some : Bool
  value : T

/-- Embeds `optional.Some`: an option with a value, flag set. -/
def Some {T : Type} (t : T) : Option T := ⟨true, t⟩

/-- Embeds `optional.None`: the zero-value option (flag false, zero value). -/
def None {T : Type} [Inhabited T] : Option T := ⟨false, default⟩

/-- Embeds `Option.IsSome`: true iff the option has a value. -/
def Option.IsSome {T : Type} (o : Option T) : Bool := o.some

/-- Embeds `Option.Get`: returns the stored value (the zero value when None). -/
def Option.Get {T : Type} (o : Option T) : T := o.value

/-- Embeds `Option.Expect`. In Go, Expect panics on None; in this
development it is only ever invoked under an `IsSome` guard, where it
returns the stored value. -/
def Option.Expect {T : Type} (o : Option T) : T := o.value

/-- Embeds `Option.String`: the value rendered via `fmt.Sprintf` (modelled
by `toString`) when present, the literal "None" otherwise. -/
def Option.String {T : Type} [ToString T] (o : Option T) : String :=
  if o.IsSome then toString o.Expect else "None"

/-- Embeds Go's built-in nil-able `error` interface: either the nil
interface value or a concrete error carrying a message. -/
inductive Error where
  | nil
  | mk (message : String)

/-- Embeds `optional.Result[T]`: an option plus a (possibly nil) error. -/
structure Result (T : Type) where
  opt : Option T
  err : Error

/-- Embeds `optional.Ok`: `Result[T]{opt: Some(t)}` (err left at its zero
value, the nil interface). -/
def Ok {T : Type} (t : T) : Result T := ⟨Some t, Error.nil⟩

/-- Embeds `optional.Err`: `Result[T]{err: err}` (opt left at its zero value). -/
def Err {T : Type} [Inhabited T] (e : Error) : Result T := ⟨⟨false, default⟩, e⟩

/-- The default-constructed (zero-value) `Result[T]`: zero-value option
and nil error. -/
def zeroResult {T : Type} [Inhabited T] : Result T := ⟨⟨false, default⟩, Error.nil⟩

/-- Embeds `Result.Ok`: the result is ok iff its option has a value. -/
def Result.Ok {T : Type} (r : Result T) : Bool := r.opt.IsSome

/-- Embeds `Result.Get`. -/
def Result.Get {T : Type} (r : Result T) : T := r.opt.Get

/-- Embeds `Result.Err`: returns the stored error (possibly nil). -/
def Result.Err {T : Type} (r : Result T) : Error := r.err

/-- Embeds `Result.String`. Go returns `r.opt.String()` when ok and
`r.err.Error()` otherwise; calling `Error()` on a nil error interface is
a nil-pointer-dereference panic, modelled as `Except.error`. -/
def Result.String {T : Type} [ToString T] (r : Result T) : Except String String :=
  if r.Ok then Except.ok r.opt.String
  else
    match r.err with
    | Error.mk m => Except.ok m
    | Error.nil => Except.error "runtime error: invalid memory address or nil pointer dereference"

end optional

namespace iterator

/-- Embeds `iterator.Slice[T]`: a fixed backing slice and a cursor index. -/
structure Slice (T : Type) where
  Values : List T
  index : Nat

/-- Embeds `context.Context` restricted to what the library observes of
it: whether the Done channel has fired (the context was cancelled). -/
inductive Ctx where
  | background
  | canceled

/-- The dynamic types flowing through `iterator.Iterator[T]` interface
values in this library, as far as the claims reach: `*iterator.Slice`,
`iterator.Func` (nil, or a closure draining a fixed list of values, the
shape built by the library's own `funcIteratorOf` pattern), and the
`functional.sorted` wrapper returned by `Sort` (which wraps a fresh
`*Slice` and whose method set promotes only `Next`). The channel-backed
variant is genuinely concurrent and is not embedded. -/
inductive Iter (T : Type) where
  | slice (s : Slice T)
  | funcNil
  | funcIter (values : List T)
  | sorted (s : Slice T)

/-- Embeds `Slice.Count`: `len(s.Values) - s.index`. -/
def Slice.Count {T : Type} (s : Slice T) : Int :=
  (s.Values.length : Int) - (s.index : Int)

/-- Embeds `Slice.Next`: if the cursor is in bounds, return the element
at the cursor wrapped in Some and advance the cursor; otherwise None. -/
def Slice.Next {T : Type} [Inhabited T] (s : Slice T) : optional.Option T × Slice T :=
  if s.Values.length > s.index then
    (optional.Some (s.Values.getD s.index default), { s with index := s.index + 1 })
  else
    (optional.None, s)

/-- Embeds `Slice.WaitForNext`: the context parameter is ignored
(`_ context.Context` in the source) and the method just calls `Next`. -/
def Slice.WaitForNext {T : Type} [Inhabited T] (_ctx : Ctx) (s : Slice T) :
    optional.Option T × Slice T :=
  s.Next

/-- Embeds the dynamic dispatch of `Iterator.Next` over the embedded
variants: `Slice.Next`, `Func.Next` (nil function yields None; a
list-draining closure yields its head and retains the tail), and the
`sorted` wrapper's promoted `Next` (delegating to the wrapped slice). -/
def Iter.Next {T : Type} [Inhabited T] : Iter T → optional.Option T × Iter T
  | Iter.slice s => let r := s.Next; (r.1, Iter.slice r.2)
  | Iter.funcNil => (optional.None, Iter.funcNil)
  | Iter.funcIter [] => (optional.None, Iter.funcIter [])
  | Iter.funcIter (x :: xs) => (optional.Some x, Iter.funcIter xs)
  | Iter.sorted s => let r := s.Next; (r.1, Iter.sorted r.2)

/-- Embeds the package-level helper `waitForNext`: a goroutine computes
`iter.Next()` and buffers the result, then a select races that buffer
against the context's Done channel. The goroutine runs (and hence the
source is advanced) regardless of cancellation; when the context is
already cancelled both select branches are ready, and `pick` models the
scheduler's choice (`true` = the buffered result wins). -/
def waitForNext {T : Type} [Inhabited T] (ctx : Ctx) (pick : Bool) (iter : Iter T) :
    optional.Option T × Iter T :=
  let r := iter.Next
  match ctx with
  | Ctx.background => r
  | Ctx.canceled => if pick then r else (optional.None, r.2)

/-- Embeds the package-level `iterator.WaitForNext`: if the iterator's
dynamic type implements `BlockingIterator` (among the embedded variants,
only `*Slice` does — the `sorted` wrapper promotes only `Next`, and
`Func` has no `WaitForNext`), its native method is called; otherwise the
goroutine adapter `waitForNext` is used. -/
def WaitForNext {T : Type} [Inhabited T] (ctx : Ctx) (pick : Bool) (iter : Iter T) :
    optional.Option T × Iter T :=
  match iter with
  | Iter.slice s => let r := s.WaitForNext ctx; (r.1, Iter.slice r.2)
  | _ => waitForNext ctx pick iter

/-- Number of elements the iterator can still produce; the termination
measure for the combinator loop. -/
def remaining {T : Type} : Iter T → Nat
  | Iter.slice s => s.Values.length - s.index
  | Iter.funcNil => 0
  | Iter.funcIter values => values.length
  | Iter.sorted s => s.Values.length - s.index

/-- The sequence the iterator will produce from its current state: the
semantic drain of the embedded iterator. -/
def toList {T : Type} : Iter T → List T
  | Iter.slice s => s.Values.drop s.index
  | Iter.funcNil => []
  | Iter.funcIter values => values
  | Iter.sorted s => s.Values.drop s.index

theorem remaining_next_lt {T : Type} [Inhabited T] (iter : Iter T)
    (h : (Iter.Next iter).1.IsSome = true) :
    remaining (Iter.Next iter).2 < remaining iter := by
  cases iter with
  | slice s =>
    by_cases hc : s.Values.length > s.index
    · simp [Iter.Next, Slice.Next, hc, remaining]
      omega
    · simp [Iter.Next, Slice.Next, hc, optional.None, optional.Option.IsSome] at h
  | funcNil => simp [Iter.Next, optional.None, optional.Option.IsSome] at h
  | funcIter values =>
    cases values with
    | nil => simp [Iter.Next, optional.None, optional.Option.IsSome] at h
    | cons x xs => simp [Iter.Next, remaining]
  | sorted s =>
    by_cases hc : s.Values.length > s.index
    · simp [Iter.Next, Slice.Next, hc, remaining]
      omega
    · simp [Iter.Next, Slice.Next, hc, optional.None, optional.Option.IsSome] at h

theorem toList_next_some {T : Type} [Inhabited T] (iter : Iter T)
    (h : (Iter.Next iter).1.IsSome = true) :
    toList iter = (Iter.Next iter).1.Expect :: toList (Iter.Next iter).2 := by
  cases iter with
  | slice s =>
    by_cases hc : s.Values.length > s.index
    · simp [Iter.Next, Slice.Next, hc, toList, optional.Some, optional.Option.Expect]
    · simp [Iter.Next, Slice.Next, hc, optional.None, optional.Option.IsSome] at h
  | funcNil => simp [Iter.Next, optional.None, optional.Option.IsSome] at h
  | funcIter values =>
    cases values with
    | nil => simp [Iter.Next, optional.None, optional.Option.IsSome] at h
    | cons x xs => simp [Iter.Next, toList, optional.Some, optional.Option.Expect]
  | sorted s =>
    by_cases hc : s.Values.length > s.index
    · simp [Iter.Next, Slice.Next, hc, toList, optional.Some, optional.Option.Expect]
    · simp [Iter.Next, Slice.Next, hc, optional.None, optional.Option.IsSome] at h

theorem toList_next_none {T : Type} [Inhabited T] (iter : Iter T)
    (h : ¬(Iter.Next iter).1.IsSome = true) :
    toList iter = [] := by
  cases iter with
  | slice s =>
    by_cases hc : s.Values.length > s.index
    · simp [Iter.Next, Slice.Next, hc, optional.Some, optional.Option.IsSome] at h
    · simp [toList]
      omega
  | funcNil => simp only [toList]
  | funcIter values =>
    cases values with
    | nil => simp [toList]
    | cons x xs => simp [Iter.Next, optional.Some, optional.Option.IsSome] at h
  | sorted s =>
    by_cases hc : s.Values.length > s.index
    · simp [Iter.Next, Slice.Next, hc, optional.Some, optional.Option.IsSome] at h
    · simp [toList]
      omega

end iterator

namespace functional

open iterator

/-- Embeds the `defaultSize` constant inside `getSizeHint`. -/
def defaultSize : Int := 16

/-- Embeds `getSizeHint`: if the iterator's dynamic type implements
`Enumerable` (among the embedded variants only `*Slice` — the `sorted`
wrapper's method set promotes only `Next`, and `Func` has no `Count`),
return its `Count()` when positive; otherwise the default. -/
def getSizeHint {T : Type} (iter : Iter T) : Int :=
  match iter with
  | Iter.slice s => if s.Count > 0 then s.Count else defaultSize
  | _ => defaultSize

/-- Embeds `allocate`: `make([]T, 0, getSizeHint(iter))` — an empty list
whose capacity (no observable effect on contents) uses the size hint. -/
def allocate {T S : Type} (_iter : Iter S) : List T := []

/-- Embeds `ForEach`: repeatedly pull `Next()`; while it yields a value,
invoke the callback; stop when the callback invokes `Break` or the
iterator yields None. Go callbacks mutate their captured closure state
and may call `stop()`; this is embedded by threading the closure state
`st` explicitly: the callback returns the updated state together with
whether it invoked `stop()`. -/
def ForEach {T S : Type} [Inhabited T] (iter : Iter T) (fn : T → S → S × Bool) (st : S) : S :=
  if h : (Iter.Next iter).1.IsSome = true then
    let r := fn (Iter.Next iter).1.Expect st
    if r.2 then r.1 else ForEach (Iter.Next iter).2 fn r.1
  else
    st
termination_by remaining iter
decreasing_by exact remaining_next_lt iter h

/-- Embeds `Collect`: drain the iterator via `ForEach`, appending every
value to a slice that starts from `allocate`. -/
def Collect {T : Type} [Inhabited T] (iter : Iter T) : List T :=
  ForEach iter (fun t slice => (slice ++ [t], false)) (allocate iter)

/-- Embeds the index loop at the end of `Equal`: walk `idx` from 0 and
return false on the first position where the collected slices differ. -/
def eqValuesFrom {T : Type} [Inhabited T] [DecidableEq T] (a b : List T) (idx : Nat) : Bool :=
  if idx < a.length then
    if a.getD idx default ≠ b.getD idx default then false
    else eqValuesFrom a b (idx + 1)
  else
    true
termination_by a.length - idx

/-- Embeds `Equal`: a preliminary size-hint check (false when the hints
differ), then collect both sides, compare lengths, and compare
element-wise. -/
def Equal {T : Type} [Inhabited T] [DecidableEq T] (a b : Iter T) : Bool :=
  if getSizeHint a ≠ getSizeHint b then false
  else
    let aValues := Collect a
    let bValues := Collect b
    if aValues.length ≠ bValues.length then false
    else eqValuesFrom aValues bValues 0

/-- Embeds `Map`: eagerly drain the source, apply `fn` to every element,
and return a fresh `*Slice` iterator over the results. -/
def Map {F To : Type} [Inhabited F] (iter : Iter F) (fn : F → To) : Iter To :=
  Iter.slice ⟨ForEach iter (fun x vals => (vals ++ [fn x], false)) (allocate iter), 0⟩

/-- Embeds `Reduce`: left fold over the iterator; the accumulator starts
from `var accumulator To`, the zero value of the result type, modelled
by `default`. -/
def Reduce {F To : Type} [Inhabited F] [Inhabited To] (iter : Iter F) (fn : To → F → To) : To :=
  ForEach iter (fun x accum => (fn accum x, false)) default

/-- Embeds `sort.IsSorted` on `comparables[T]`: no adjacent pair is out
of order with respect to `Less` (embedded as the `lt` parameter, since
Go's `Comparable` constraint supplies a single `Less` method). -/
def IsSorted {T : Type} (lt : T → T → Bool) : List T → Bool
  | [] => true
  | [_] => true
  | a :: b :: rest => !lt b a && IsSorted lt (b :: rest)

/-- Insert into a sorted list, after all elements not greater than the
inserted one (stability). -/
def insertSorted {T : Type} (lt : T → T → Bool) (x : T) : List T → List T
  | [] => [x]
  | y :: ys => if lt x y then x :: y :: ys else y :: insertSorted lt x ys

/-- Models `sort.Stable` on `comparables[T]`: a stable sort producing an
ordered permutation, embedded as insertion sort. -/
def insertionSort {T : Type} (lt : T → T → Bool) : List T → List T
  | [] => []
  | x :: xs => insertSorted lt x (insertionSort lt xs)

/-- Models `sort.Sort` on `comparables[T]`: an unstable quicksort-based
sort producing an ordered permutation, embedded as quicksort. -/
def quicksort {T : Type} (lt : T → T → Bool) : List T → List T
  | [] => []
  | x :: xs =>
    quicksort lt (xs.filter (fun y => lt y x)) ++
      x :: quicksort lt (xs.filter (fun y => !lt y x))
termination_by l => l.length
decreasing_by
  · exact Nat.lt_succ_of_le (List.length_filter_le _ _)
  · exact Nat.lt_succ_of_le (List.length_filter_le _ _)

/-- Embeds `Sort`: if the argument is already a `sorted`-tagged value
returned by `Sort`, return it unchanged; otherwise collect the values,
leave them as they are when `sort.IsSorted` holds, otherwise sort them
(stably or not per the flag), and wrap a fresh `*Slice` over the values
in the `sorted` tag. -/
def «Sort» {T : Type} [Inhabited T] (lt : T → T → Bool) (iter : Iter T) (stable : Bool) : Iter T :=
  match iter with
  | Iter.sorted s => Iter.sorted s
  | _ =>
    let values := Collect iter
    let values2 :=
      if !IsSorted lt values then
        if stable then insertionSort lt values else quicksort lt values
      else values
    Iter.sorted ⟨values2, 0⟩

/-- Whether an iterator value carries the "already sorted" tag
(`functional.sorted`), i.e. is a value previously returned by `Sort`. -/
def isSortedIter {T : Type} : Iter T → Bool
  | Iter.sorted _ => true
  | _ => false

/-- Accumulator loop inside `Chain`: starting from the identity, wrap
each provided function (panicking on nil, embedded as `Except.error`)
so that the previously accumulated function runs after it. -/
def chainGo {T : Type} (f : T → T) : List (Option (T → T)) → Except String (T → T)
  | [] => Except.ok f
  | none :: _ => Except.error "functional: nil chain function"
  | some fn :: rest => chainGo (fun t => f (fn t)) rest

/-- Embeds `Chain` (pkg/functions.go): compose the provided, possibly
nil, functions right to left; a nil function anywhere panics at
construction time (embedded as `Except.error`). -/
def Chain {T : Type} (fns : List (Option (T → T))) : Except String (T → T) :=
  chainGo (fun t => t) fns

/-- The `addOne` endofunction of the library's Chain example. -/
def addOne (i : Int) : Int := i + 1

/-- The `square` endofunction of the library's Chain example. -/
def square (i : Int) : Int := i * i

/-- The `halve` endofunction of the library's Chain example. -/
def halve (i : Int) : Int := i / 2

end functional

/-- Whether an embedded computation ended in a Go panic (`Except.error`). -/
def isPanic {A : Type} : Except String A → Bool
  | Except.error _ => true
  | Except.ok _ => false

section Semantics

open iterator functional

theorem ForEach_noStop {T S : Type} [Inhabited T] (step : S → T → S) (iter : Iter T) (st : S) :
    ForEach iter (fun x s => (step s x, false)) st = (toList iter).foldl step st := by
  rw [ForEach]
  split
  · rename_i h
    simp only
    rw [toList_next_some iter h, List.foldl_cons]
    exact ForEach_noStop step (Iter.Next iter).2 (step st (Iter.Next iter).1.Expect)
  · rename_i h
    rw [toList_next_none iter h]
    rfl
termination_by remaining iter
decreasing_by exact remaining_next_lt iter (by assumption)

theorem foldl_push_map {T U : Type} (g : T → U) :
    ∀ (l : List T) (init : List U),
      l.foldl (fun acc t => acc ++ [g t]) init = init ++ l.map g := by
  intro l
  induction l with
  | nil => intro init; simp
  | cons x xs ih => intro init; simp [List.foldl_cons, ih]

theorem Collect_eq_toList {T : Type} [Inhabited T] (iter : Iter T) :
    Collect iter = toList iter := by
  calc Collect iter
      = (toList iter).foldl (fun acc t => acc ++ [t]) [] :=
        ForEach_noStop (fun (acc : List T) (t : T) => acc ++ [t]) iter []
    _ = [] ++ (toList iter).map id := foldl_push_map id (toList iter) []
    _ = toList iter := by simp

theorem Collect_Map {F To : Type} [Inhabited F] [Inhabited To] (iter : Iter F) (f : F → To) :
    Collect (Map iter f) = (Collect iter).map f := by
  rw [Collect_eq_toList (Map iter f), Collect_eq_toList iter]
  show List.drop 0 (ForEach iter (fun x vals => (vals ++ [f x], false)) (allocate iter)) =
    (toList iter).map f
  rw [List.drop_zero]
  exact (ForEach_noStop (fun (vals : List To) (x : F) => vals ++ [f x]) iter []).trans
    ((foldl_push_map f (toList iter) []).trans (by simp))

theorem Reduce_eq_foldl {F To : Type} [Inhabited F] [Inhabited To]
    (iter : Iter F) (fn : To → F → To) :
    Reduce iter fn = (Collect iter).foldl fn default := by
  rw [Collect_eq_toList iter]
  exact ForEach_noStop fn iter default

theorem eqValuesFrom_true_iff {T : Type} [Inhabited T] [DecidableEq T]
    (a b : List T) (idx : Nat) :
    eqValuesFrom a b idx = true ↔
      ∀ i, idx ≤ i → i < a.length → a.getD i default = b.getD i default := by
  rw [eqValuesFrom]
  split
  · rename_i hlt
    split
    · rename_i hne
      constructor
      · intro hfalse; cases hfalse
      · intro hall; exact absurd (hall idx le_rfl hlt) hne
    · rename_i heq
      push_neg at heq
      rw [eqValuesFrom_true_iff a b (idx + 1)]
      constructor
      · intro hall i hle hlt2
        rcases Nat.eq_or_lt_of_le hle with heqi | hlti
        · rw [← heqi]; exact heq
        · exact hall i hlti hlt2
      · intro hall i hle hlt2
        exact hall i (Nat.le_of_succ_le hle) hlt2
  · rename_i hge
    constructor
    · intro _ i hle hlt2
      exact absurd (Nat.lt_of_le_of_lt hle hlt2) hge
    · intro _; rfl
termination_by a.length - idx
decreasing_by omega

theorem list_ext_getD {T : Type} [Inhabited T] (a b : List T) (hlen : a.length = b.length)
    (h : ∀ i, i < a.length → a.getD i default = b.getD i default) : a = b := by
  apply List.ext_getElem hlen
  intro i h1 h2
  have hi := h i h1
  rwa [List.getD_eq_getElem a default h1, List.getD_eq_getElem b default h2] at hi

theorem chainGo_all_some {T : Type} (fns : List (T → T)) :
    ∀ f : T → T, functional.chainGo f (fns.map some) =
      Except.ok (fun t => f (fns.foldr (fun g r => g r) t)) := by
  induction fns with
  | nil => intro f; rfl
  | cons g rest ih =>
    intro f
    show functional.chainGo (fun t => f (g t)) (rest.map some) = _
    rw [ih (fun t => f (g t))]
    rfl

theorem Equal_slice_iff {T : Type} [Inhabited T] [DecidableEq T] (a b : List T) :
    Equal (Iter.slice ⟨a, 0⟩) (Iter.slice ⟨b, 0⟩) = true ↔ a = b := by
  have hca : Collect (Iter.slice ⟨a, 0⟩) = a := by
    rw [Collect_eq_toList]; simp [toList]
  have hcb : Collect (Iter.slice ⟨b, 0⟩) = b := by
    rw [Collect_eq_toList]; simp [toList]
  constructor
  · intro h
    simp only [Equal, hca, hcb] at h
    split at h
    · cases h
    · split at h
      · cases h
      · rename_i hlen
        push_neg at hlen
        have hall := (eqValuesFrom_true_iff a b 0).mp h
        exact list_ext_getD a b hlen (fun i hi => hall i (Nat.zero_le i) hi)
  · intro h
    subst h
    simp only [Equal, hca]
    rw [if_neg (by simp)]
    rw [if_neg (by simp)]
    exact (eqValuesFrom_true_iff a a 0).mpr (fun i _ _ => rfl)

end Semantics

section Claims

open iterator functional

/-- C1 (amended): with an already-cancelled cancellation signal the
bounded-sequence iterator's `WaitForNext` — both the native method and
the package-level `iterator.WaitForNext`, which dispatches to it —
ignores the signal entirely and behaves exactly like `Next`, so on a
non-empty source it returns the next element (present) and consumes it;
and the generic goroutine adapter used for variants without a native
blocking wait advances the source regardless of cancellation. -/
theorem c1_slice_waitForNext_ignores_cancellation :
    ∀ {T : Type} [Inhabited T] (ctx : Ctx) (pick : Bool) (s : Slice T),
      Slice.WaitForNext ctx s = s.Next ∧
      WaitForNext ctx pick (Iter.slice s) = ((s.Next).1, Iter.slice (s.Next).2) ∧
      ∀ iter : Iter T, (waitForNext Ctx.canceled pick iter).2 = (Iter.Next iter).2 := by
  intro T _ ctx pick s
  refine ⟨rfl, rfl, ?_⟩
  intro iter
  unfold waitForNext
  cases pick <;> rfl

/-- C1 is false as stated: the package-level `WaitForNext` on the
bounded-sequence iterator over `[4, 9, 13]` with an already-cancelled
signal returns `Some 4` (present, not absent) and consumes the element
(the cursor advances to 1). -/
theorem c1_waitForNext_canceled_counterexample :
    (WaitForNext Ctx.canceled false (Iter.slice ⟨[(4 : Int), 9, 13], 0⟩)).1.IsSome = true ∧
    (WaitForNext Ctx.canceled false (Iter.slice ⟨[(4 : Int), 9, 13], 0⟩)).1.Get = 4 ∧
    (WaitForNext Ctx.canceled false (Iter.slice ⟨[(4 : Int), 9, 13], 0⟩)).2 =
      Iter.slice ⟨[4, 9, 13], 1⟩ :=
  ⟨rfl, rfl, rfl⟩

/-- C2: `Collect` of a fresh bounded-sequence iterator over any sequence
returns exactly that sequence — same elements, same order. -/
theorem c2_collect_roundtrip :
    ∀ {T : Type} [Inhabited T] (S : List T), Collect (Iter.slice ⟨S, 0⟩) = S := by
  intro T _ S
  rw [Collect_eq_toList]
  simp [toList]

/-- C3: on fresh bounded-sequence iterators `Equal` is structural
equality — true iff the sequences have equal length and equal elements
at every index — and hence reflexive, symmetric and transitive; in
particular it is false on `[1,2]` vs `[2,1]` and true on `[2,1]` vs
`[2,1]`. -/
theorem c3_equal_structural_equality :
    ∀ (a b c : List Int),
      (Equal (Iter.slice ⟨a, 0⟩) (Iter.slice ⟨b, 0⟩) = true ↔
        (a.length = b.length ∧ ∀ i, a.getD i 0 = b.getD i 0)) ∧
      Equal (Iter.slice ⟨a, 0⟩) (Iter.slice ⟨a, 0⟩) = true ∧
      (Equal (Iter.slice ⟨a, 0⟩) (Iter.slice ⟨b, 0⟩) =
        Equal (Iter.slice ⟨b, 0⟩) (Iter.slice ⟨a, 0⟩)) ∧
      (Equal (Iter.slice ⟨a, 0⟩) (Iter.slice ⟨b, 0⟩) = true →
        Equal (Iter.slice ⟨b, 0⟩) (Iter.slice ⟨c, 0⟩) = true →
        Equal (Iter.slice ⟨a, 0⟩) (Iter.slice ⟨c, 0⟩) = true) ∧
      Equal (Iter.slice ⟨[(1 : Int), 2], 0⟩) (Iter.slice ⟨[2, 1], 0⟩) = false ∧
      Equal (Iter.slice ⟨[(2 : Int), 1], 0⟩) (Iter.slice ⟨[2, 1], 0⟩) = true := by
  have key : ∀ x y : List Int,
      Equal (Iter.slice ⟨x, 0⟩) (Iter.slice ⟨y, 0⟩) = true ↔
        (x.length = y.length ∧ ∀ i, x.getD i 0 = y.getD i 0) := by
    intro x y
    rw [Equal_slice_iff]
    constructor
    · rintro rfl; exact ⟨rfl, fun i => rfl⟩
    · rintro ⟨hlen, hall⟩
      exact list_ext_getD x y hlen (fun i _ => hall i)
  intro a b c
  refine ⟨key a b, (Equal_slice_iff a a).mpr rfl, ?_, ?_, ?_, (Equal_slice_iff _ _).mpr rfl⟩
  · by_cases hab : a = b
    · subst hab; rfl
    · have h1 : Equal (Iter.slice ⟨a, 0⟩) (Iter.slice ⟨b, 0⟩) = false :=
        Bool.eq_false_iff.mpr (fun h => hab ((Equal_slice_iff a b).mp h))
      have h2 : Equal (Iter.slice ⟨b, 0⟩) (Iter.slice ⟨a, 0⟩) = false :=
        Bool.eq_false_iff.mpr (fun h => hab ((Equal_slice_iff b a).mp h).symm)
      rw [h1, h2]
  · intro h1 h2
    exact (Equal_slice_iff a c).mpr
      (((Equal_slice_iff a b).mp h1).trans ((Equal_slice_iff b c).mp h2))
  · exact Bool.eq_false_iff.mpr
      (fun h => (by decide : ¬([(1 : Int), 2] = [2, 1])) ((Equal_slice_iff _ _).mp h))

/-- Witness for C3: the transitivity hypotheses are discharged at the
concrete triple `[2,1]`, `[2,1]`, `[2,1]` using the theorem's own
reflexivity conjunct. -/
theorem c3_equal_witness :
    Equal (Iter.slice ⟨[(2 : Int), 1], 0⟩) (Iter.slice ⟨[2, 1], 0⟩) = true := by
  have H := c3_equal_structural_equality [(2 : Int), 1] [2, 1] [2, 1]
  exact H.2.2.2.1 H.2.1 H.2.1

/-- C4: a function-backed iterator and a bounded-sequence iterator that
yield the identical sequence `[1]` are reported unequal: the
function-backed side has no `Count` capability so its size hint is the
default 16 while the slice reports 1, and the pre-check short-circuits
to false. -/
theorem c4_equal_size_hint_false_negative :
    Collect (Iter.funcIter [(1 : Int)]) = Collect (Iter.slice ⟨[(1 : Int)], 0⟩) ∧
    getSizeHint (Iter.funcIter [(1 : Int)]) = 16 ∧
    getSizeHint (Iter.slice ⟨[(1 : Int)], 0⟩) = 1 ∧
    Equal (Iter.funcIter [(1 : Int)]) (Iter.slice ⟨[(1 : Int)], 0⟩) = false := by
  refine ⟨?_, by decide, by decide, ?_⟩
  · rw [Collect_eq_toList, Collect_eq_toList]
    rfl
  · show (if getSizeHint (Iter.funcIter [(1 : Int)]) ≠ getSizeHint (Iter.slice ⟨[(1 : Int)], 0⟩)
        then false
        else
          let aValues := Collect (Iter.funcIter [(1 : Int)])
          let bValues := Collect (Iter.slice ⟨[(1 : Int)], 0⟩)
          if aValues.length ≠ bValues.length then false
          else eqValuesFrom aValues bValues 0) = false
    rw [if_pos (by decide)]

/-- C5: `Sort` always returns a value carrying the "already sorted" tag,
and applying `Sort` to an already-tagged value returns it unchanged via
the short-circuit (no collection, no re-sorting), so
`Sort(Sort(iter, s), s) = Sort(iter, s)`. -/
theorem c5_sort_idempotent_tag :
    ∀ {T : Type} [Inhabited T] (lt : T → T → Bool) (iter : Iter T) (stable : Bool),
      isSortedIter («Sort» lt iter stable) = true ∧
      «Sort» lt («Sort» lt iter stable) stable = «Sort» lt iter stable ∧
      ∀ s : Slice T, «Sort» lt (Iter.sorted s) stable = Iter.sorted s := by
  intro T _ lt iter stable
  refine ⟨?_, ?_, fun s => rfl⟩
  · cases iter <;> rfl
  · cases iter <;> rfl

/-- C6: `Map` preserves length and order — the collected output of
`Map(iter, f)` has the same length as the collected source, and at every
index it is `f` of the source element at that index. -/
theorem c6_map_preserves_length_order :
    ∀ {F To : Type} [Inhabited F] [Inhabited To] (iter : Iter F) (f : F → To),
      (Collect (Map iter f)).length = (Collect iter).length ∧
      ∀ i, i < (Collect iter).length →
        (Collect (Map iter f)).getD i default = f ((Collect iter).getD i default) := by
  intro F To _ _ iter f
  constructor
  · rw [Collect_Map]; simp
  · intro i hi
    rw [Collect_Map]
    have h2 : i < ((Collect iter).map f).length := by simpa using hi
    rw [List.getD_eq_getElem ((Collect iter).map f) default h2,
      List.getD_eq_getElem (Collect iter) default hi]
    simp

/-- Witness for C6: the index-bound hypothesis is discharged at index 0
of the two-element source `[1, 2]` mapped by doubling. -/
theorem c6_map_witness :
    0 < (Collect (Iter.slice ⟨[(1 : Int), 2], 0⟩)).length ∧
    (Collect (Map (Iter.slice ⟨[(1 : Int), 2], 0⟩) (fun x => x * 2))).getD 0 default =
      (fun x => x * 2) ((Collect (Iter.slice ⟨[(1 : Int), 2], 0⟩)).getD 0 default) := by
  have hlen : 0 < (Collect (Iter.slice ⟨[(1 : Int), 2], 0⟩)).length := by
    rw [Collect_eq_toList]; simp [toList]
  exact ⟨hlen,
    (c6_map_preserves_length_order (Iter.slice ⟨[(1 : Int), 2], 0⟩) (fun x => x * 2)).2 0 hlen⟩

/-- C7: `Reduce` is a left fold whose initial accumulator is the zero
value of the result type (`default`), applying elements in iteration
order; on an empty iterator it returns the zero value, and reducing
`[0,1,2,3,4,5]` with addition yields 15. -/
theorem c7_reduce_left_fold :
    (∀ {F To : Type} [Inhabited F] [Inhabited To] (iter : Iter F) (fn : To → F → To),
      Reduce iter fn = (Collect iter).foldl fn default) ∧
    (∀ {F To : Type} [Inhabited F] [Inhabited To] (fn : To → F → To),
      Reduce (Iter.slice ⟨([] : List F), 0⟩) fn = default) ∧
    Reduce (Iter.slice ⟨[(0 : Int), 1, 2, 3, 4, 5], 0⟩) (fun accum cur => accum + cur) = 15 := by
  refine ⟨?_, ?_, ?_⟩
  · intro F To _ _ iter fn
    exact Reduce_eq_foldl iter fn
  · intro F To _ _ fn
    rw [Reduce_eq_foldl, Collect_eq_toList]
    rfl
  · rw [Reduce_eq_foldl, Collect_eq_toList]
    decide

/-- C8: `Chain` composes its (non-nil) argument functions right to left
— `Chain(f1, ..., fn)(x) = f1(f2(... fn(x) ...))`, the last-declared
function running first — and on the library's own example,
`Chain(halve, square, addOne)(5) = 18`. -/
theorem c8_chain_right_to_left :
    (∀ {T : Type} (fns : List (T → T)),
      Chain (fns.map some) = Except.ok (fun t => fns.foldr (fun g r => g r) t)) ∧
    Except.map (fun g => g 5) (Chain [some halve, some square, some addOne]) =
      Except.ok 18 := by
  constructor
  · intro T fns
    show chainGo (fun t => t) (fns.map some) = _
    rw [chainGo_all_some fns (fun t => t)]
  · rfl

/-- C9: the default-constructed (zero-value) `Result` is erroneous with
no error object: `Ok()` is false and `Err()` is the nil error, even
though no error value was ever stored. -/
theorem c9_zero_result_erroneous_no_error :
    ∀ {T : Type} [Inhabited T],
      (optional.zeroResult : optional.Result T).Ok = false ∧
      (optional.zeroResult : optional.Result T).Err = optional.Error.nil := by
  intro T _
  exact ⟨rfl, rfl⟩

/-- C10: `String()` on the default-constructed `Result` panics with a
nil-pointer dereference (the erroneous branch calls `Error()` on the nil
stored error), and in general `String()` panics exactly when the result
is neither ok nor carrying a non-nil error. -/
theorem c10_zero_result_string_panics :
    ((optional.zeroResult : optional.Result Int).String =
      Except.error "runtime error: invalid memory address or nil pointer dereference") ∧
    ∀ {T : Type} [ToString T] (r : optional.Result T),
      (isPanic r.String = true ↔ (r.Ok = false ∧ r.Err = optional.Error.nil)) := by
  constructor
  · rfl
  · intro T _ r
    unfold optional.Result.String
    by_cases h : r.Ok = true
    · rw [if_pos h]
      simp [isPanic, h]
    · have hf : r.Ok = false := Bool.eq_false_iff.mpr h
      rw [if_neg h]
      cases hre : r.err with
      | nil => simp [isPanic, hf, optional.Result.Err, hre]
      | mk m => simp [isPanic, hf, optional.Result.Err, hre]

end Claims
